import Mathlib

set_option maxHeartbeats 1000000
set_option maxRecDepth 4000

/-!
# Verification of the CF-CryptoIQ market-data and analysis pipeline

Shallow embedding of the parts of the repository that the verified claims
concern: the Ollama recommendation engine (`cryptos/services/ollama_analyzer.py`),
the multi-provider price aggregator (`cryptos/services/api_manager.py`),
the technical-indicator engine (`cryptos/services/technical_indicators.py`),
and the on-demand staleness check in `cryptos/views.py` (`crypto_analysis`).

Python floats are modelled by exact rationals extended with IEEE special
values (`PF` below); machine rounding is not modelled, which is irrelevant to
the claims proved here (they concern NaN/∞ propagation and exact results of
division-by-zero paths, which IEEE arithmetic produces exactly).
-/

namespace CryptoIQ

/-! ## JSON values, as produced by `json.loads` on the flat objects the
regex `\{[^{}]*"recommendation"[^{}]*\}` can match.

Modelling restriction: string escape sequences and exponent notation are not
parsed (the parse then fails, taking the keyword-fallback path of the source,
which is also modelled); no claim depends on those inputs. -/

inductive JVal where
  | jnum (q : ℚ)
  | jstr (s : String)
  | jbool (b : Bool)
  | jnull
deriving DecidableEq

/-- A Python dict with string keys, as an association list (unique keys). -/
abbrev JDict := List (String × JVal)

/-- `d.get(k)` returning `None` when absent (first match; keys kept unique). -/
def jlookup : JDict → String → Option JVal
  | [], _ => none
  | (k2, v) :: rest, k => if k2 = k then some v else jlookup rest k

/-- List-of-chars version of `needle` being a prefix of `hay`. -/
def charsPrefix : List Char → List Char → Bool
  | [], _ => true
  | _ :: _, [] => false
  | a :: as, b :: bs => a == b && charsPrefix as bs

/-- Python `needle in hay` (substring containment) on char lists. -/
def charsContains (needle : List Char) : List Char → Bool
  | [] => charsPrefix needle []
  | c :: rest => charsPrefix needle (c :: rest) || charsContains needle rest

/-- Python `needle in hay` for strings. -/
def containsSub (needle hay : String) : Bool :=
  charsContains needle.data hay.data

/-- Python `str.upper()` (ASCII, which is all the source compares). -/
def strUpper (s : String) : String := String.mk (s.data.map Char.toUpper)

/-- Python `str.lower()` (ASCII). -/
def strLower (s : String) : String := String.mk (s.data.map Char.toLower)

/-- The literal `"recommendation"` (with its quotes) required inside the
regex match `\{[^{}]*"recommendation"[^{}]*\}`. -/
def recKey : List Char := "\"recommendation\"".data

/-- `re.search(r'\{[^{}]*"recommendation"[^{}]*\}', text)`: the leftmost
substring that starts with `{`, contains no further brace, contains the
literal `"recommendation"`, and ends with `}`. -/
def findJsonObj : List Char → Option (List Char)
  | [] => none
  | c :: rest =>
    if c = '\x7b' then
      let run := rest.takeWhile (fun d => !(d == '\x7b') && !(d == '\x7d'))
      match rest.drop run.length with
      | '\x7d' :: _ =>
        if charsContains recKey run then some (('\x7b' :: run) ++ ['\x7d'])
        else findJsonObj rest
      | _ => findJsonObj rest
    else findJsonObj rest

/-- Skip JSON whitespace. -/
def skipWs : List Char → List Char
  | [] => []
  | c :: rest =>
    if c == ' ' || c == '\t' || c == '\n' || c == '\r' then skipWs rest
    else c :: rest

/-- Body of a JSON string after the opening quote (no escapes; see module
note). Returns the string and the remainder after the closing quote. -/
def jstringBody : List Char → List Char → Option (String × List Char)
  | [], _ => none
  | c :: rest, acc =>
    if c = '"' then some (String.mk acc.reverse, rest)
    else if c = '\\' then none
    else jstringBody rest (c :: acc)

/-- A JSON string literal (starting at the opening quote). -/
def parseJString : List Char → Option (String × List Char)
  | '"' :: rest => jstringBody rest []
  | _ => none

def digitVal (c : Char) : ℕ := c.toNat - 48

/-- Take a maximal run of decimal digits. -/
def takeDigits : List Char → (List Char × List Char)
  | [] => ([], [])
  | c :: rest =>
    if c.isDigit then
      let p := takeDigits rest
      (c :: p.1, p.2)
    else ([], c :: rest)

def digitsToNat (ds : List Char) : ℕ :=
  ds.foldl (fun a c => a * 10 + digitVal c) 0

/-- A JSON number: optional minus sign, digits, optional fraction. -/
def parseJNumber (s : List Char) : Option (ℚ × List Char) :=
  let p := match s with
    | '-' :: r => (true, r)
    | _ => (false, s)
  let ds := takeDigits p.2
  if ds.1.isEmpty then none
  else
    match ds.2 with
    | '.' :: r =>
      let fs := takeDigits r
      if fs.1.isEmpty then none
      else
        let q : ℚ := (digitsToNat ds.1 : ℚ) + (digitsToNat fs.1 : ℚ) / ((10 : ℚ) ^ fs.1.length)
        some (if p.1 then -q else q, fs.2)
    | _ => some (if p.1 then -(digitsToNat ds.1 : ℚ) else (digitsToNat ds.1 : ℚ), ds.2)

/-- A JSON value: string, number, `true`, `false` or `null` (the regex match
cannot contain nested objects or arrays containing braces; arrays of scalars
are not modelled — the loads then fails into the keyword fallback). -/
def parseJValue (s : List Char) : Option (JVal × List Char) :=
  match s with
  | '"' :: rest => (jstringBody rest []).map (fun p => (JVal.jstr p.1, p.2))
  | 't' :: r => if charsPrefix "rue".data r then some (JVal.jbool true, r.drop 3) else none
  | 'f' :: r => if charsPrefix "alse".data r then some (JVal.jbool false, r.drop 4) else none
  | 'n' :: r => if charsPrefix "ull".data r then some (JVal.jnull, r.drop 3) else none
  | _ => (parseJNumber s).map (fun p => (JVal.jnum p.1, p.2))

/-- Insert with replacement (Python dict assignment / duplicate JSON key). -/
def setJ (d : JDict) (k : String) (v : JVal) : JDict :=
  d.filter (fun p => p.1 != k) ++ [(k, v)]

/-- The member list of a JSON object, fueled by input length. -/
def parseMembers : ℕ → List Char → JDict → Option JDict
  | 0, _, _ => none
  | fuel + 1, s, acc =>
    match parseJString (skipWs s) with
    | none => none
    | some (k, r1) =>
      match skipWs r1 with
      | ':' :: r2 =>
        match parseJValue (skipWs r2) with
        | none => none
        | some (v, r3) =>
          let acc2 := setJ acc k v
          match skipWs r3 with
          | ',' :: r4 => parseMembers fuel r4 acc2
          | '\x7d' :: r5 => if (skipWs r5).isEmpty then some acc2 else none
          | _ => none
      | _ => none

/-- `json.loads` on a flat object (see modelling note above). -/
def jsonLoads (s : List Char) : Option JDict :=
  match skipWs s with
  | '\x7b' :: rest =>
    match skipWs rest with
    | '\x7d' :: r2 => if (skipWs r2).isEmpty then some [] else none
    | _ => parseMembers (s.length + 1) rest []
  | _ => none

/-- Python `float(s)` on a string: stripped optional-sign decimal literal
(exotic forms such as exponents and `inf` are not modelled; they do not
affect the claims, which only need in-range clamping or the failure path). -/
def pyFloatOfChars (s : List Char) : Option ℚ :=
  let t := skipWs s
  let p := match t with
    | '-' :: r => (true, r)
    | '+' :: r => (false, r)
    | _ => (false, t)
  let ds := takeDigits p.2
  match ds.2 with
  | '.' :: r =>
    let fs := takeDigits r
    if ds.1.isEmpty && fs.1.isEmpty then none
    else if (skipWs fs.2).isEmpty then
      let q : ℚ := (digitsToNat ds.1 : ℚ) + (digitsToNat fs.1 : ℚ) / ((10 : ℚ) ^ fs.1.length)
      some (if p.1 then -q else q)
    else none
  | _ =>
    if ds.1.isEmpty then none
    else if (skipWs ds.2).isEmpty then
      some (if p.1 then -(digitsToNat ds.1 : ℚ) else (digitsToNat ds.1 : ℚ))
    else none

/-- Python `float(v)` on the objects a JSON member can hold, with the raised
exception's message on failure (`ValueError` for a non-numeric string,
`TypeError` for `None`). -/
def pyFloatExc : JVal → Except String ℚ
  | JVal.jnum q => Except.ok q
  | JVal.jstr s =>
    match pyFloatOfChars s.data with
    | some q => Except.ok q
    | none => Except.error ("could not convert string to float: " ++ s)
  | JVal.jbool b => Except.ok (if b then 1 else 0)
  | JVal.jnull => Except.error "float() argument must be a string or a real number, not NoneType"

def confKeyChars : List Char := "confidence".data

/-- Case-insensitive prefix test (ASCII, as the regex flag `re.IGNORECASE`). -/
def ciPrefix : List Char → List Char → Bool
  | [], _ => true
  | _ :: _, [] => false
  | a :: as, b :: bs => a.toLower == b.toLower && ciPrefix as bs

/-- The character class `[:\s]` of the confidence regex. -/
def confSep (c : Char) : Bool :=
  c == ':' || c == ' ' || c == '\t' || c == '\n' || c == '\r'

/-- Try to match `confidence[:\s]+(\d+)` at the head of `s`. -/
def matchConfAt (s : List Char) : Option ℕ :=
  if ciPrefix confKeyChars s then
    let r := s.drop confKeyChars.length
    let seps := r.takeWhile confSep
    if seps.isEmpty then none
    else
      let ds := takeDigits (r.drop seps.length)
      if ds.1.isEmpty then none else some (digitsToNat ds.1)
  else none

/-- `re.search(r'confidence[:\s]+(\d+)', text, re.IGNORECASE)`: the leftmost
match's digit group. -/
def extractConfidence : List Char → Option ℕ
  | [] => none
  | c :: rest =>
    match matchConfAt (c :: rest) with
    | some n => some n
    | none => extractConfidence rest

/-- The recommendation chosen by `_parse_response_fallback`'s keyword scan:
`'BUY' in text.upper()` wins, then `'SELL'`, else the `'HOLD'` default. -/
def fallbackRec (text : String) : String :=
  if containsSub "BUY" (strUpper text) then "BUY"
  else if containsSub "SELL" (strUpper text) then "SELL"
  else "HOLD"

/-- The confidence chosen by `_parse_response_fallback`: the regex capture
as an int, else the default `50`. -/
def fallbackConf (text : String) : ℚ :=
  match extractConfidence text.data with
  | some n => (n : ℚ)
  | none => 50

/-- `OllamaAnalyzer._parse_response_fallback`: the dict it returns (defaults
with the keyword-scanned recommendation and regex-extracted confidence). -/
def parseResponseFallback (text : String) : JDict :=
  [("recommendation", JVal.jstr (fallbackRec text)),
   ("confidence_score", JVal.jnum (fallbackConf text)),
   ("reasoning", JVal.jstr text)]

/-- The JSON-extraction pipeline of `analyze_with_ollama`: regex match then
`json.loads`; `none` means the keyword fallback is used instead. -/
def parsedDict (text : String) : Option JDict :=
  match findJsonObj text.data with
  | some m => jsonLoads m
  | none => none

/-- The dict `analyze_with_ollama` goes on to normalize. -/
def rawResult (text : String) : JDict :=
  match parsedDict text with
  | some d => d
  | none => parseResponseFallback text

/-- `result.get('recommendation', 'HOLD').upper()`; a non-string value has no
`.upper` and raises (`AttributeError`). -/
def recUpper : Option JVal → Except String String
  | none => Except.ok "HOLD"
  | some (JVal.jstr s) => Except.ok (strUpper s)
  | some _ => Except.error "object has no attribute upper"

/-- `float(result.get('confidence_score', 50))`. -/
def confVal : Option JVal → Except String ℚ
  | none => Except.ok 50
  | some v => pyFloatExc v

/-- `max(0, min(100, confidence))`. -/
def clampQ (c : ℚ) : ℚ := max 0 (min 100 c)

/-- The outcome of the `self.client.generate(...)` call: either the response
text, or a raised exception with its `str(e)` message (connection refused,
timeout, bad config, ...). -/
inductive ServiceOutcome where
  | success (response_text : String)
  | failure (error_msg : String)

/-- The record `analyze_with_ollama` returns. `reasoning` holds the dict
value stored under `'reasoning'` (a `JVal`, since the source stores the raw
parsed object). -/
structure AnalysisResult where
  recommendation : String
  confidence_score : ℚ
  reasoning : JVal
  raw_response : String
deriving DecidableEq

/-- The reasoning text of the connection-failure branch (`'10061' in msg or
'connection' in msg.lower()`). -/
def unavailableMsg : String :=
  "Ollama server is not available. Please check the connection settings in Settings page."

/-- The reasoning text of the other-failure branch. -/
def genericMsg (e : String) : String :=
  "Error during analysis: " ++ e ++ ". Please check Ollama configuration."

/-- The failure classification of the `except` handler. -/
def isConnectionError (msg : String) : Bool :=
  containsSub "10061" msg || containsSub "connection" (strLower msg)

/-- The neutral default the `except` handler returns. -/
def errorResult (msg : String) : AnalysisResult :=
  if isConnectionError msg then
    { recommendation := "hold", confidence_score := 0,
      reasoning := JVal.jstr unavailableMsg, raw_response := "" }
  else
    { recommendation := "hold", confidence_score := 0,
      reasoning := JVal.jstr (genericMsg msg), raw_response := "" }

/-- The `try` body of `analyze_with_ollama` from the service call onward:
extract/parse the response, normalize the recommendation against the
whitelist, clamp the confidence. Any exception is the `Except.error` case
with its message. -/
def tryBody : ServiceOutcome → Except String AnalysisResult
  | ServiceOutcome.failure msg => Except.error msg
  | ServiceOutcome.success text =>
    match recUpper (jlookup (rawResult text) "recommendation"),
          confVal (jlookup (rawResult text) "confidence_score") with
    | Except.error e, _ => Except.error e
    | Except.ok _, Except.error e => Except.error e
    | Except.ok rec0, Except.ok c0 =>
      Except.ok
        { recommendation :=
            strLower (if rec0 = "BUY" ∨ rec0 = "SELL" ∨ rec0 = "HOLD" then rec0 else "HOLD"),
          confidence_score := clampQ c0,
          reasoning :=
            match jlookup (rawResult text) "reasoning" with
            | some v => v
            | none => JVal.jstr text,
          raw_response := text }

/-- `OllamaAnalyzer.analyze_with_ollama`: the `try` body with every exception
caught and replaced by the classified neutral default — a total function. -/
def analyze_with_ollama (o : ServiceOutcome) : AnalysisResult :=
  match tryBody o with
  | Except.ok r => r
  | Except.error msg => errorResult msg

/-! ### Supporting lemmas for the recommendation engine -/

theorem genericMsg_ne_unavailable (e : String) : genericMsg e ≠ unavailableMsg := by
  intro h
  have h2 := congrArg (fun s => s.data.head?) h
  simp only [genericMsg, unavailableMsg] at h2
  rw [String.data_append, String.data_append] at h2
  simp [List.head?_append] at h2

theorem tryBody_ok_conf (o : ServiceOutcome) (r : AnalysisResult)
    (h : tryBody o = Except.ok r) : ∃ c, r.confidence_score = clampQ c := by
  cases o with
  | failure m => exact Except.noConfusion h
  | success t =>
    simp only [tryBody] at h
    split at h
    · exact Except.noConfusion h
    · exact Except.noConfusion h
    · rename_i s1 s2 rec0 c0 hrec hconf
      injection h with h2
      exact ⟨c0, by rw [← h2]⟩

theorem tryBody_ok_rec (o : ServiceOutcome) (r : AnalysisResult)
    (h : tryBody o = Except.ok r) :
    r.recommendation = "buy" ∨ r.recommendation = "sell" ∨ r.recommendation = "hold" := by
  cases o with
  | failure m => exact Except.noConfusion h
  | success t =>
    simp only [tryBody] at h
    split at h
    · exact Except.noConfusion h
    · exact Except.noConfusion h
    · rename_i s1 s2 rec0 c0 hrec hconf
      injection h with h2
      rw [← h2]
      by_cases hb : rec0 = "BUY" ∨ rec0 = "SELL" ∨ rec0 = "HOLD"
      · rcases hb with hx | hx | hx <;> subst hx
        · exact Or.inl rfl
        · exact Or.inr (Or.inl rfl)
        · exact Or.inr (Or.inr rfl)
      · right; right
        show strLower (if rec0 = "BUY" ∨ rec0 = "SELL" ∨ rec0 = "HOLD" then rec0 else "HOLD") =
          "hold"
        rw [if_neg hb]
        decide

theorem errorResult_rec (msg : String) : (errorResult msg).recommendation = "hold" := by
  unfold errorResult; split <;> rfl

theorem errorResult_conf (msg : String) : (errorResult msg).confidence_score = 0 := by
  unfold errorResult; split <;> rfl

/-- In the keyword-fallback path (no parseable JSON object in the response),
`analyze_with_ollama` returns exactly the normalized fallback dict. -/
theorem fallbackRec_cases (text : String) :
    fallbackRec text = "BUY" ∨ fallbackRec text = "SELL" ∨ fallbackRec text = "HOLD" := by
  unfold fallbackRec
  split
  · exact Or.inl rfl
  · split
    · exact Or.inr (Or.inl rfl)
    · exact Or.inr (Or.inr rfl)

theorem analyze_fallback (text : String) (hpd : parsedDict text = none) :
    analyze_with_ollama (ServiceOutcome.success text) =
      { recommendation := strLower (fallbackRec text),
        confidence_score := clampQ (fallbackConf text),
        reasoning := JVal.jstr text,
        raw_response := text } := by
  have hraw : rawResult text = parseResponseFallback text := by
    unfold rawResult; rw [hpd]
  have e1 : jlookup (parseResponseFallback text) "recommendation" =
      some (JVal.jstr (fallbackRec text)) := rfl
  have e2 : jlookup (parseResponseFallback text) "confidence_score" =
      some (JVal.jnum (fallbackConf text)) := rfl
  have e3 : jlookup (parseResponseFallback text) "reasoning" =
      some (JVal.jstr text) := rfl
  have ht : tryBody (ServiceOutcome.success text) =
      Except.ok
        { recommendation := strLower (fallbackRec text),
          confidence_score := clampQ (fallbackConf text),
          reasoning := JVal.jstr text,
          raw_response := text } := by
    simp only [tryBody]
    rw [hraw, e1, e2, e3]
    simp only [recUpper, confVal, pyFloatExc]
    rcases fallbackRec_cases text with h | h | h <;> rw [h] <;> rfl
  simp only [analyze_with_ollama, ht]

/-! ### Claims C1–C3 -/

/-- **C1.** `analyze_with_ollama` is total (the model makes every raised
exception an explicit `Except.error`, all of which the handler consumes): on
any failure of the `try` body it returns the neutral default — `hold` with
confidence `0` — and the reasoning message distinguishes a connectivity
failure (message containing `10061` or `connection`, as connection
refused/timeout errors do) from every other failure class. -/
theorem analyze_failure_neutral (o : ServiceOutcome) (msg : String)
    (h : tryBody o = Except.error msg) :
    (analyze_with_ollama o).recommendation = "hold" ∧
    (analyze_with_ollama o).confidence_score = 0 ∧
    (isConnectionError msg = true →
      (analyze_with_ollama o).reasoning = JVal.jstr unavailableMsg) ∧
    (isConnectionError msg = false →
      (analyze_with_ollama o).reasoning = JVal.jstr (genericMsg msg) ∧
      genericMsg msg ≠ unavailableMsg) := by
  have ha : analyze_with_ollama o = errorResult msg := by
    unfold analyze_with_ollama; rw [h]
  rw [ha]
  refine ⟨errorResult_rec msg, errorResult_conf msg, ?_, ?_⟩
  · intro hc; unfold errorResult; simp [hc]
  · intro hc; unfold errorResult; simp [hc, genericMsg_ne_unavailable]

theorem analyze_failure_neutral_witness :
    (analyze_with_ollama (ServiceOutcome.failure "Connection refused")).recommendation = "hold" ∧
    (analyze_with_ollama (ServiceOutcome.failure "Connection refused")).confidence_score = 0 ∧
    (analyze_with_ollama (ServiceOutcome.failure "Connection refused")).reasoning =
      JVal.jstr unavailableMsg := by
  have h := analyze_failure_neutral (ServiceOutcome.failure "Connection refused")
    "Connection refused" rfl
  exact ⟨h.1, h.2.1, h.2.2.1 (by decide)⟩

/-- **C2.** For every outcome of the reasoning-service call — any response
text, including out-of-range or non-numeric confidence values, and any raised
exception — the confidence score of the result lies within `[0, 100]`. -/
theorem confidence_within_range (o : ServiceOutcome) :
    0 ≤ (analyze_with_ollama o).confidence_score ∧
    (analyze_with_ollama o).confidence_score ≤ 100 := by
  cases htb : tryBody o with
  | error msg =>
    have ha : analyze_with_ollama o = errorResult msg := by
      unfold analyze_with_ollama; rw [htb]
    rw [ha, errorResult_conf]
    norm_num
  | ok r =>
    have ha : analyze_with_ollama o = r := by
      unfold analyze_with_ollama; rw [htb]
    obtain ⟨c, hc⟩ := tryBody_ok_conf o r htb
    rw [ha, hc]
    unfold clampQ
    exact ⟨le_max_left 0 _, max_le (by norm_num) (min_le_left _ _)⟩

/-- **C3 (amended).** The recommendation returned by `analyze_with_ollama` is
always one of `buy`/`sell`/`hold`; the `"BUY"`-substring normalization applies
only in the keyword-fallback path (no parseable JSON object in the response
text), where `BUY` is checked before `SELL`; a `recommendation` value parsed
out of JSON is kept only when it equals `BUY`/`SELL`/`HOLD` case-insensitively
and otherwise (e.g. `STRONG_BUY`) defaults to `hold`. -/
theorem recommendation_normalized (o : ServiceOutcome) :
    ((analyze_with_ollama o).recommendation = "buy" ∨
     (analyze_with_ollama o).recommendation = "sell" ∨
     (analyze_with_ollama o).recommendation = "hold") ∧
    (∀ text, o = ServiceOutcome.success text → parsedDict text = none →
      ((containsSub "BUY" (strUpper text) = true →
        (analyze_with_ollama o).recommendation = "buy") ∧
       (containsSub "BUY" (strUpper text) = false →
        containsSub "SELL" (strUpper text) = true →
        (analyze_with_ollama o).recommendation = "sell") ∧
       (containsSub "BUY" (strUpper text) = false →
        containsSub "SELL" (strUpper text) = false →
        (analyze_with_ollama o).recommendation = "hold"))) ∧
    (∀ text d s, o = ServiceOutcome.success text → parsedDict text = some d →
      jlookup d "recommendation" = some (JVal.jstr s) →
      strUpper s ≠ "BUY" → strUpper s ≠ "SELL" → strUpper s ≠ "HOLD" →
      (analyze_with_ollama o).recommendation = "hold") := by
  refine ⟨?_, ?_, ?_⟩
  · cases htb : tryBody o with
    | error msg =>
      have ha : analyze_with_ollama o = errorResult msg := by
        unfold analyze_with_ollama; rw [htb]
      rw [ha]
      exact Or.inr (Or.inr (errorResult_rec msg))
    | ok r =>
      have ha : analyze_with_ollama o = r := by
        unfold analyze_with_ollama; rw [htb]
      rw [ha]
      exact tryBody_ok_rec o r htb
  · intro text ho hpd
    subst ho
    rw [analyze_fallback text hpd]
    refine ⟨?_, ?_, ?_⟩
    · intro hA
      show strLower (fallbackRec text) = "buy"
      unfold fallbackRec
      rw [if_pos hA]
      decide
    · intro hA hB
      show strLower (fallbackRec text) = "sell"
      unfold fallbackRec
      rw [if_neg (by simp [hA]), if_pos hB]
      decide
    · intro hA hB
      show strLower (fallbackRec text) = "hold"
      unfold fallbackRec
      rw [if_neg (by simp [hA]), if_neg (by simp [hB])]
      decide
  · intro text d s ho hpd hlook h1 h2 h3
    subst ho
    have hraw : rawResult text = d := by unfold rawResult; rw [hpd]
    have hrec : recUpper (jlookup (rawResult text) "recommendation") =
        Except.ok (strUpper s) := by rw [hraw, hlook]; rfl
    cases hcv : confVal (jlookup (rawResult text) "confidence_score") with
    | error e =>
      unfold analyze_with_ollama
      simp only [tryBody, hrec, hcv]
      exact errorResult_rec e
    | ok c0 =>
      unfold analyze_with_ollama
      simp only [tryBody, hrec, hcv]
      show strLower (if strUpper s = "BUY" ∨ strUpper s = "SELL" ∨ strUpper s = "HOLD"
          then strUpper s else "HOLD") = "hold"
      rw [if_neg (fun hor => hor.elim h1 (fun hr => hr.elim h2 h3))]
      decide

theorem recommendation_normalized_witness :
    parsedDict "I would BUY here" = none ∧
    (analyze_with_ollama (ServiceOutcome.success "I would BUY here")).recommendation = "buy" :=
  ⟨by decide,
   ((recommendation_normalized (ServiceOutcome.success "I would BUY here")).2.1
     "I would BUY here" rfl (by decide)).1 (by decide)⟩

/-- **C3, counterexample to the claim as stated.** When the service returns
the JSON object `{"recommendation": "STRONG_BUY"}`, the upstream
recommendation value contains the substring `BUY`, yet `analyze_with_ollama`
returns `hold`, not `buy`: the substring normalization is applied only in the
keyword-fallback path, while a parsed JSON value is matched against the exact
whitelist. -/
theorem strong_buy_counterexample :
    containsSub "BUY" "STRONG_BUY" = true ∧
    (analyze_with_ollama (ServiceOutcome.success
      "\x7b\"recommendation\": \"STRONG_BUY\"\x7d")).recommendation = "hold" ∧
    ("hold" : String) ≠ "buy" :=
  ⟨by decide, by decide, by decide⟩

/-! ## APIManager (`cryptos/services/api_manager.py`)

The two provider clients catch their own network/HTTP errors and return
`None` (`BinanceService._make_request` / `CoinGeckoService._make_request`),
so each provider is modelled as an oracle `String → Option _`; `none` covers
both "errored" and "no data". Time is modelled in whole seconds
(`cache_duration = timedelta(minutes=5)` = 300 s); cache timestamps are
written from the same clock, so `now - ts` is the entry's age. -/

/-- The dict `BinanceService.get_ticker` returns on success. -/
structure BinanceTicker where
  price : ℚ
  open_price : ℚ
  high : ℚ
  low : ℚ
  volume : ℚ
  quote_volume : ℚ
  price_change : ℚ
  price_change_percent : ℚ
  count : ℕ
deriving DecidableEq

/-- The dict `CoinGeckoService.get_current_price` returns on success. -/
structure CoinGeckoPrice where
  price : ℚ
  change_24h : ℚ
  volume_24h : ℚ
  last_updated : ℚ
deriving DecidableEq

/-- The unified result dict of `APIManager.get_current_price` (a non-empty
dict, hence always truthy for the `if cached:` test). -/
structure PriceResult where
  price : ℚ
  source : String
  high_24h : ℚ
  low_24h : ℚ
  volume_24h : ℚ
  change_24h : ℚ
deriving DecidableEq

/-- Python `str.strip()` whitespace. -/
def isPySpace (c : Char) : Bool :=
  c == ' ' || c == '\t' || c == '\n' || c == '\r' || c == '\x0b' || c == '\x0c'

def stripChars (l : List Char) : List Char :=
  ((l.dropWhile isPySpace).reverse.dropWhile isPySpace).reverse

/-- `symbol.strip().upper().replace(' ', '')`. -/
def symbolClean (s : String) : String :=
  String.mk (((stripChars s.data).map Char.toUpper).filter (fun c => !(c == ' ')))

/-- The `APIManager.cache` dict: key → (data, fetch time). -/
abbrev Cache := List (String × PriceResult × ℕ)

def cacheLookup : Cache → String → Option (PriceResult × ℕ)
  | [], _ => none
  | (k2, v) :: rest, k => if k2 = k then some v else cacheLookup rest k

def cacheErase (c : Cache) (k : String) : Cache :=
  c.filter (fun e => e.1 != k)

/-- `APIManager._get_from_cache`: the data when the entry is younger than
5 minutes, with lazy deletion of an expired entry. -/
def getFromCache (c : Cache) (now : ℕ) (key : String) : Option PriceResult × Cache :=
  match cacheLookup c key with
  | none => (none, c)
  | some (data, ts) =>
    if now - ts < 300 then (some data, c)
    else (none, cacheErase c key)

/-- `APIManager._set_cache`. -/
def setCache (c : Cache) (key : String) (data : PriceResult) (now : ℕ) : Cache :=
  (key, data, now) :: cacheErase c key

/-- One `get_current_price` call, instrumented with which providers were
actually hit over the network. -/
structure FetchOutcome where
  result : Option PriceResult
  cache : Cache
  binanceCalled : Bool
  coingeckoCalled : Bool

/-- The CoinGecko fallback tail of `get_current_price` (the `time.sleep(0.5)`
rate-limit delay has no observable effect here). Reached only after Binance
was tried, hence `binanceCalled := true`. -/
def coingeckoStep (gecko : String → Option CoinGeckoPrice)
    (c1 : Cache) (now : ℕ) (key sc : String) : FetchOutcome :=
  match gecko sc with
  | some p =>
    if p.price > 0 then
      { result := some
          { price := p.price, source := "coingecko", high_24h := 0, low_24h := 0,
            volume_24h := p.volume_24h, change_24h := p.change_24h },
        cache := setCache c1 key
          { price := p.price, source := "coingecko", high_24h := 0, low_24h := 0,
            volume_24h := p.volume_24h, change_24h := p.change_24h } now,
        binanceCalled := true, coingeckoCalled := true }
    else
      { result := none, cache := c1, binanceCalled := true, coingeckoCalled := true }
  | none =>
    { result := none, cache := c1, binanceCalled := true, coingeckoCalled := true }

/-- `APIManager.get_current_price`: clean the symbol, consult the cache,
try Binance, fall back to CoinGecko, else `None`. -/
def get_current_price (binance : String → Option BinanceTicker)
    (gecko : String → Option CoinGeckoPrice)
    (c : Cache) (now : ℕ) (symbol : String) : FetchOutcome :=
  let sc := symbolClean symbol
  let key := "price_" ++ sc
  match getFromCache c now key with
  | (some cached, c1) =>
    { result := some cached, cache := c1, binanceCalled := false, coingeckoCalled := false }
  | (none, c1) =>
    match binance sc with
    | some t =>
      if t.price > 0 then
        let r : PriceResult :=
          { price := t.price, source := "binance", high_24h := t.high, low_24h := t.low,
            volume_24h := t.quote_volume, change_24h := t.price_change_percent }
        { result := some r, cache := setCache c1 key r now,
          binanceCalled := true, coingeckoCalled := false }
      else coingeckoStep gecko c1 now key sc
    | none => coingeckoStep gecko c1 now key sc

/-! ### Claims C4, C5, C10 -/

/-- **C4.** With a cache entry for the normalized symbol's price key less
than 5 minutes old, `get_current_price` returns the cached value, calls
neither provider, and leaves the cache unchanged — so a second call while
the entry is still fresh returns the identical value, again with no provider
call. -/
theorem cache_hit_no_provider_calls (binance : String → Option BinanceTicker)
    (gecko : String → Option CoinGeckoPrice) (c : Cache) (sym : String)
    (data : PriceResult) (ts now1 now2 : ℕ)
    (hentry : cacheLookup c ("price_" ++ symbolClean sym) = some (data, ts))
    (h1 : now1 - ts < 300) (h2 : now2 - ts < 300) :
    (get_current_price binance gecko c now1 sym).result = some data ∧
    (get_current_price binance gecko c now1 sym).binanceCalled = false ∧
    (get_current_price binance gecko c now1 sym).coingeckoCalled = false ∧
    (get_current_price binance gecko c now1 sym).cache = c ∧
    (get_current_price binance gecko c now2 sym).result = some data ∧
    (get_current_price binance gecko c now2 sym).binanceCalled = false ∧
    (get_current_price binance gecko c now2 sym).coingeckoCalled = false := by
  have hg1 : getFromCache c now1 ("price_" ++ symbolClean sym) = (some data, c) := by
    unfold getFromCache
    simp only [hentry]
    rw [if_pos h1]
  have hg2 : getFromCache c now2 ("price_" ++ symbolClean sym) = (some data, c) := by
    unfold getFromCache
    simp only [hentry]
    rw [if_pos h2]
  simp [get_current_price, hg1, hg2]

theorem cache_hit_no_provider_calls_witness :
    (get_current_price (fun _ => none) (fun _ => none)
      [("price_BTC",
        { price := 50000, source := "binance", high_24h := 51000, low_24h := 49000,
          volume_24h := 1, change_24h := 0 }, 0)] 100 "BTC").result =
      some { price := 50000, source := "binance", high_24h := 51000, low_24h := 49000,
             volume_24h := 1, change_24h := 0 } ∧
    (get_current_price (fun _ => none) (fun _ => none)
      [("price_BTC",
        { price := 50000, source := "binance", high_24h := 51000, low_24h := 49000,
          volume_24h := 1, change_24h := 0 }, 0)] 100 "BTC").coingeckoCalled = false := by
  have h := cache_hit_no_provider_calls (fun _ => none) (fun _ => none)
    [("price_BTC",
      { price := 50000, source := "binance", high_24h := 51000, low_24h := 49000,
        volume_24h := 1, change_24h := 0 }, 0)] "BTC"
    { price := 50000, source := "binance", high_24h := 51000, low_24h := 49000,
      volume_24h := 1, change_24h := 0 } 0 100 100 rfl (by decide) (by decide)
  exact ⟨h.1, h.2.2.1⟩

/-- **C5.** With no fresh cache entry, when Binance yields nothing usable
(errored / no data / price ≤ 0), `get_current_price` consults CoinGecko, and
returns `None` exactly when CoinGecko also yields no usable price (absent or
≤ 0). -/
theorem binance_unusable_fallback (binance : String → Option BinanceTicker)
    (gecko : String → Option CoinGeckoPrice) (c : Cache) (now : ℕ) (sym : String)
    (hmiss : (getFromCache c now ("price_" ++ symbolClean sym)).1 = none)
    (hbin : ∀ t, binance (symbolClean sym) = some t → t.price ≤ 0) :
    (get_current_price binance gecko c now sym).coingeckoCalled = true ∧
    ((get_current_price binance gecko c now sym).result = none ↔
      (∀ p, gecko (symbolClean sym) = some p → p.price ≤ 0)) := by
  obtain ⟨c2, hfc⟩ : ∃ c2, getFromCache c now ("price_" ++ symbolClean sym) = (none, c2) :=
    ⟨(getFromCache c now ("price_" ++ symbolClean sym)).2, by rw [← hmiss]⟩
  obtain ⟨c1, hone⟩ : ∃ c1, get_current_price binance gecko c now sym =
      coingeckoStep gecko c1 now ("price_" ++ symbolClean sym) (symbolClean sym) := by
    simp only [get_current_price, hfc]
    split
    · rename_i t hb
      rw [if_neg (not_lt.mpr (hbin t hb))]
      exact ⟨c2, rfl⟩
    · exact ⟨c2, rfl⟩
  rw [hone]
  cases hgk : gecko (symbolClean sym) with
  | none =>
    simp [coingeckoStep, hgk]
  | some p =>
    by_cases hp : p.price > 0
    · simp only [coingeckoStep, hgk]
      rw [if_pos hp]
      refine ⟨rfl, ⟨fun hnone => Option.noConfusion hnone, fun hall => ?_⟩⟩
      exact absurd hp (not_lt.mpr (hall p rfl))
    · simp only [coingeckoStep, hgk]
      rw [if_neg hp]
      refine ⟨rfl, ⟨fun _ q hq => ?_, fun _ => rfl⟩⟩
      injection hq with hq2
      rw [← hq2]
      exact not_lt.mp hp

theorem binance_unusable_fallback_witness :
    (get_current_price (fun _ => none) (fun _ => none) [] 0 "BTC").coingeckoCalled = true ∧
    (get_current_price (fun _ => none) (fun _ => none) [] 0 "BTC").result = none := by
  have h := binance_unusable_fallback (fun _ => none) (fun _ => none) [] 0 "BTC"
    rfl (fun t ht => Option.noConfusion ht)
  exact ⟨h.1, h.2.mpr (fun p hp => Option.noConfusion hp)⟩

/-- **C10.** When the price is served by the CoinGecko fallback, the result
has `source = "coingecko"` and its `high_24h`/`low_24h` fields are the
literal `0` (CoinGecko's simple-price endpoint supplies no 24h high/low). -/
theorem coingecko_fallback_zero_fields (binance : String → Option BinanceTicker)
    (gecko : String → Option CoinGeckoPrice) (c : Cache) (now : ℕ) (sym : String)
    (p : CoinGeckoPrice)
    (hmiss : (getFromCache c now ("price_" ++ symbolClean sym)).1 = none)
    (hbin : ∀ t, binance (symbolClean sym) = some t → t.price ≤ 0)
    (hgk : gecko (symbolClean sym) = some p) (hp : 0 < p.price) :
    (get_current_price binance gecko c now sym).result =
      some { price := p.price, source := "coingecko", high_24h := 0, low_24h := 0,
             volume_24h := p.volume_24h, change_24h := p.change_24h } := by
  obtain ⟨c2, hfc⟩ : ∃ c2, getFromCache c now ("price_" ++ symbolClean sym) = (none, c2) :=
    ⟨(getFromCache c now ("price_" ++ symbolClean sym)).2, by rw [← hmiss]⟩
  obtain ⟨c1, hone⟩ : ∃ c1, get_current_price binance gecko c now sym =
      coingeckoStep gecko c1 now ("price_" ++ symbolClean sym) (symbolClean sym) := by
    simp only [get_current_price, hfc]
    split
    · rename_i t hb
      rw [if_neg (not_lt.mpr (hbin t hb))]
      exact ⟨c2, rfl⟩
    · exact ⟨c2, rfl⟩
  rw [hone]
  simp only [coingeckoStep, hgk]
  rw [if_pos hp]

theorem coingecko_fallback_zero_fields_witness :
    (get_current_price (fun _ => none)
      (fun _ => some { price := 7, change_24h := 1, volume_24h := 2, last_updated := 0 })
      [] 0 "BTC").result =
      some { price := 7, source := "coingecko", high_24h := 0, low_24h := 0,
             volume_24h := 2, change_24h := 1 } :=
  coingecko_fallback_zero_fields (fun _ => none)
    (fun _ => some { price := 7, change_24h := 1, volume_24h := 2, last_updated := 0 })
    [] 0 "BTC" { price := 7, change_24h := 1, volume_24h := 2, last_updated := 0 }
    rfl (fun t ht => Option.noConfusion ht) rfl (by norm_num)

/-! ## TechnicalIndicators (`cryptos/services/technical_indicators.py`)

pandas float series are modelled as `List PF`: exact rationals extended with
the IEEE special values NaN and ±∞, with the arithmetic the indicator code
performs (add/sub/mul/div, comparisons, min/max). Rolling windows use the
pandas default `min_periods = window`, i.e. the first `n-1` positions and any
window containing NaN are NaN. -/

/-- A pandas float in exact arithmetic. -/
inductive PF where
  | nan : PF
  | pinf : PF
  | ninf : PF
  | num : ℚ → PF
deriving DecidableEq

namespace PF

def neg : PF → PF
  | nan => nan
  | pinf => ninf
  | ninf => pinf
  | num a => num (-a)

def add : PF → PF → PF
  | nan, _ => nan
  | _, nan => nan
  | pinf, ninf => nan
  | ninf, pinf => nan
  | pinf, _ => pinf
  | _, pinf => pinf
  | ninf, _ => ninf
  | _, ninf => ninf
  | num a, num b => num (a + b)

def sub (x y : PF) : PF := add x (neg y)

def mul : PF → PF → PF
  | nan, _ => nan
  | _, nan => nan
  | pinf, pinf => pinf
  | pinf, ninf => ninf
  | ninf, pinf => ninf
  | ninf, ninf => pinf
  | pinf, num b => if 0 < b then pinf else if b < 0 then ninf else nan
  | num a, pinf => if 0 < a then pinf else if a < 0 then ninf else nan
  | ninf, num b => if 0 < b then ninf else if b < 0 then pinf else nan
  | num a, ninf => if 0 < a then ninf else if a < 0 then pinf else nan
  | num a, num b => num (a * b)

/-- IEEE division; a nonzero finite over zero is a signed infinity, `0/0` is
NaN (the zero here is unsigned, matching the nonnegative divisors that occur
in the indicator code). -/
def div : PF → PF → PF
  | nan, _ => nan
  | _, nan => nan
  | pinf, pinf => nan
  | pinf, ninf => nan
  | ninf, pinf => nan
  | ninf, ninf => nan
  | pinf, num b => if b < 0 then ninf else pinf
  | ninf, num b => if b < 0 then pinf else ninf
  | num _, pinf => num 0
  | num _, ninf => num 0
  | num a, num b =>
    if b = 0 then (if a = 0 then nan else if 0 < a then pinf else ninf)
    else num (a / b)

/-- IEEE `<`: false whenever an operand is NaN. -/
def ltb : PF → PF → Bool
  | nan, _ => false
  | _, nan => false
  | pinf, _ => false
  | ninf, ninf => false
  | ninf, _ => true
  | num _, pinf => true
  | num _, ninf => false
  | num a, num b => decide (a < b)

def gtb (x y : PF) : Bool := ltb y x

def max2 : PF → PF → PF
  | nan, _ => nan
  | _, nan => nan
  | pinf, _ => pinf
  | _, pinf => pinf
  | ninf, y => y
  | x, ninf => x
  | num a, num b => num (max a b)

def min2 : PF → PF → PF
  | nan, _ => nan
  | _, nan => nan
  | ninf, _ => ninf
  | _, ninf => ninf
  | pinf, y => y
  | x, pinf => x
  | num a, num b => num (min a b)

def absPF : PF → PF
  | nan => nan
  | pinf => pinf
  | ninf => pinf
  | num a => num |a|

/-- `np.sign`. -/
def signPF : PF → PF
  | nan => nan
  | pinf => num 1
  | ninf => num (-1)
  | num a => num (if 0 < a then 1 else if a < 0 then -1 else 0)

/-- `fillna(0)`. -/
def fillZero : PF → PF
  | nan => num 0
  | x => x

end PF

/-- Sum of a rolling window (NaN-absorbing). -/
def pfSum (l : List PF) : PF := l.foldr PF.add (PF.num 0)

/-- Mean of a rolling window: NaN if any entry is NaN (pandas
`min_periods = window`), else the exact mean. -/
def pfMean (l : List PF) : PF := PF.div (pfSum l) (PF.num (l.length : ℚ))

/-- Max of a rolling window (NaN if any entry is NaN). -/
def pfMaxL : List PF → PF
  | [] => PF.nan
  | [x] => x
  | x :: y :: rest => PF.max2 x (pfMaxL (y :: rest))

/-- Min of a rolling window (NaN if any entry is NaN). -/
def pfMinL : List PF → PF
  | [] => PF.nan
  | [x] => x
  | x :: y :: rest => PF.min2 x (pfMinL (y :: rest))

/-- `series.rolling(window=n).f()`: NaN until `n` samples exist, else `f` on
the trailing window of `n` samples. -/
def rollingApply (n : ℕ) (f : List PF → PF) (xs : List PF) : List PF :=
  (List.range xs.length).map
    (fun i => if i + 1 < n then PF.nan else f ((xs.take (i + 1)).drop (i + 1 - n)))

/-- `series.diff()`: NaN first, then successive differences. -/
def diffSeries (xs : List PF) : List PF :=
  match xs with
  | [] => []
  | _ :: _ => PF.nan :: List.zipWith PF.sub xs.tail xs

/-- `series.shift()`: NaN first, then the previous value. -/
def shiftSeries (xs : List PF) : List PF :=
  match xs with
  | [] => []
  | _ :: _ => PF.nan :: xs.dropLast

/-- Recursion of pandas `ewm(adjust=False).mean()` after the seed. -/
def ewmStep (a : ℚ) (e x : PF) : PF :=
  PF.add (PF.mul (PF.num (1 - a)) e) (PF.mul (PF.num a) x)

def ewmGo (a : ℚ) (e : PF) : List PF → List PF
  | [] => []
  | x :: rest => ewmStep a e x :: ewmGo a (ewmStep a e x) rest

/-- `series.ewm(span=n, adjust=False).mean()`: seeded by the first value,
weight α = 2/(span+1). -/
def ewmSeries (span : ℚ) (xs : List PF) : List PF :=
  match xs with
  | [] => []
  | x :: rest => x :: ewmGo (2 / (span + 1)) x rest

/-- An input OHLCV row (`open` is a Lean keyword, hence `opn`). -/
structure Candle where
  opn : ℚ
  high : ℚ
  low : ℚ
  close : ℚ
  volume : ℚ
deriving DecidableEq

def closesOf (df : List Candle) : List PF := df.map (fun cd => PF.num cd.close)

def highsOf (df : List Candle) : List PF := df.map (fun cd => PF.num cd.high)

def lowsOf (df : List Candle) : List PF := df.map (fun cd => PF.num cd.low)

def volumesOf (df : List Candle) : List PF := df.map (fun cd => PF.num cd.volume)

/-- `TechnicalIndicators.calculate_sma`. -/
def calculate_sma (closeS : List ℚ) (period : ℕ) : List PF :=
  rollingApply period pfMean (closeS.map PF.num)

/-- `TechnicalIndicators.calculate_ema`. -/
def calculate_ema (closeS : List ℚ) (span : ℚ) : List PF :=
  ewmSeries span (closeS.map PF.num)

/-- `delta.where(delta > 0, 0)` elementwise (NaN > 0 is false, so NaN → 0). -/
def gainF (d : PF) : PF := if PF.gtb d (PF.num 0) then d else PF.num 0

/-- `-delta.where(delta < 0, 0)` elementwise. -/
def lossF (d : PF) : PF := PF.neg (if PF.ltb d (PF.num 0) then d else PF.num 0)

/-- `100 - 100/(1 + rs)` elementwise. -/
def rsiF (r : PF) : PF :=
  PF.sub (PF.num 100) (PF.div (PF.num 100) (PF.add (PF.num 1) r))

/-- `TechnicalIndicators.calculate_rsi`:
`delta = close.diff(); gain = delta.where(delta > 0, 0).rolling(period).mean();
loss = (-delta.where(delta < 0, 0)).rolling(period).mean(); rs = gain/loss;
rsi = 100 - 100/(1 + rs)`. -/
def calculate_rsi (closeS : List ℚ) (period : ℕ) : List PF :=
  let delta := diffSeries (closeS.map PF.num)
  let gain := rollingApply period pfMean (delta.map gainF)
  let loss := rollingApply period pfMean (delta.map lossF)
  (List.zipWith PF.div gain loss).map rsiF

/-- `TechnicalIndicators.calculate_macd`: (macd line, signal, histogram). -/
def calculate_macd (closeS : List ℚ) : List PF × List PF × List PF :=
  let emaFast := ewmSeries 12 (closeS.map PF.num)
  let emaSlow := ewmSeries 26 (closeS.map PF.num)
  let macdLine := List.zipWith PF.sub emaFast emaSlow
  let signalLine := ewmSeries 9 macdLine
  (macdLine, signalLine, List.zipWith PF.sub macdLine signalLine)

/-- `TechnicalIndicators.calculate_stochastic`: `%K = 100·(close − min₁₄ low)
/ (max₁₄ high − min₁₄ low)`, `%D` its 3-mean. -/
def calculate_stochastic (df : List Candle) (kPeriod dPeriod : ℕ) :
    List PF × List PF :=
  let lowMin := rollingApply kPeriod pfMinL (lowsOf df)
  let highMax := rollingApply kPeriod pfMaxL (highsOf df)
  let kPercent :=
    (List.zipWith PF.div (List.zipWith PF.sub (closesOf df) lowMin)
      (List.zipWith PF.sub highMax lowMin)).map (PF.mul (PF.num 100))
  (kPercent, rollingApply dPeriod pfMean kPercent)

/-- Row-wise max of the three true-range candidates, with pandas
`max(axis=1)` default `skipna=True`. -/
def rowMax3 (a b c : PF) : PF :=
  match [a, b, c].filter (fun x => !(x == PF.nan)) with
  | [] => PF.nan
  | x :: rest => rest.foldl PF.max2 x

def zip3With (f : PF → PF → PF → PF) : List PF → List PF → List PF → List PF
  | a :: as, b :: bs, c :: cs => f a b c :: zip3With f as bs cs
  | _, _, _ => []

/-- `TechnicalIndicators._calculate_true_range`. -/
def trueRange (df : List Candle) : List PF :=
  let highLow := List.zipWith PF.sub (highsOf df) (lowsOf df)
  let highClose := (List.zipWith PF.sub (highsOf df) (shiftSeries (closesOf df))).map PF.absPF
  let lowClose := (List.zipWith PF.sub (lowsOf df) (shiftSeries (closesOf df))).map PF.absPF
  zip3With rowMax3 highLow highClose lowClose

/-- `TechnicalIndicators.calculate_adx`. -/
def calculate_adx (df : List Candle) (period : ℕ) : List PF :=
  let highDiff := diffSeries (highsOf df)
  let lowDiff := (diffSeries (lowsOf df)).map PF.neg
  let plusDM := List.zipWith
    (fun hd ld => if PF.gtb hd ld && PF.gtb hd (PF.num 0) then hd else PF.num 0)
    highDiff lowDiff
  let minusDM := List.zipWith
    (fun hd ld => if PF.gtb ld hd && PF.gtb ld (PF.num 0) then ld else PF.num 0)
    highDiff lowDiff
  let atr := rollingApply period pfMean (trueRange df)
  let plusDI := (List.zipWith PF.div (rollingApply period pfMean plusDM) atr).map
    (PF.mul (PF.num 100))
  let minusDI := (List.zipWith PF.div (rollingApply period pfMean minusDM) atr).map
    (PF.mul (PF.num 100))
  let dx := (List.zipWith PF.div ((List.zipWith PF.sub plusDI minusDI).map PF.absPF)
    (List.zipWith PF.add plusDI minusDI)).map (PF.mul (PF.num 100))
  rollingApply period pfMean dx

/-- `TechnicalIndicators.calculate_volume_indicators` (volume SMA, ratio, OBV). -/
def calculate_volume_indicators (df : List Candle) : List PF × List PF × List PF :=
  let volume_sma := rollingApply 20 pfMean (volumesOf df)
  let volume_ratio := List.zipWith PF.div (volumesOf df) volume_sma
  let obv := cumsumPF (((List.zipWith PF.mul
    ((diffSeries (closesOf df)).map PF.signPF) (volumesOf df))).map PF.fillZero)
  (volume_sma, volume_ratio, obv)
where
  cumsumGo (acc : PF) : List PF → List PF
    | [] => []
    | x :: rest => PF.add acc x :: cumsumGo (PF.add acc x) rest
  cumsumPF (l : List PF) : List PF := cumsumGo (PF.num 0) l

/-- The trailing window `df.tail(window)` of `calculate_support_resistance`. -/
def tailWindow (df : List Candle) (w : ℕ) : List Candle := df.drop (df.length - w)

/-- `recent_data['high'].max()` (`none` when the frame is empty, where the
source would raise). -/
def resistanceOf (df : List Candle) : Option ℚ :=
  match (tailWindow df 20).map Candle.high with
  | [] => none
  | x :: rest => some (rest.foldl max x)

def supportOf (df : List Candle) : Option ℚ :=
  match (tailWindow df 20).map Candle.low with
  | [] => none
  | x :: rest => some (rest.foldl min x)

/-- `pivot = (high.iloc[-1] + low.iloc[-1] + close.iloc[-1]) / 3`. -/
def pivotOf (df : List Candle) : Option ℚ :=
  df.getLast?.map (fun cd => (cd.high + cd.low + cd.close) / 3)

/-- The per-key conversion of `get_latest_values`:
`float(value.iloc[-1]) if not pd.isna(value.iloc[-1]) else None`. Note that
±∞ is a float and is *not* `pd.isna`; only NaN (or an empty frame, where the
source would raise) maps to the absent marker. -/
def latestValue (s : List PF) : Option PF :=
  match s.getLast? with
  | none => none
  | some PF.nan => none
  | some v => some v

/-- The snapshot dict of `get_latest_values`. The Bollinger upper/lower
bands are omitted: their values involve a real square root (rolling standard
deviation), no claim concerns them, and their presence behaviour is that of
`sma_20` (`bb_middle`, which is kept). Scalar float entries
(support/resistance/pivot/current price/volume) are never NaN, so their
conversion keeps them whenever the frame is non-empty. -/
structure Snapshot where
  sma_20 : Option PF
  sma_50 : Option PF
  ema_12 : Option PF
  ema_26 : Option PF
  rsi : Option PF
  macd : Option PF
  macd_signal : Option PF
  macd_histogram : Option PF
  bb_middle : Option PF
  stoch_k : Option PF
  stoch_d : Option PF
  adx : Option PF
  volume_sma : Option PF
  volume_ratio : Option PF
  obv : Option PF
  support : Option ℚ
  resistance : Option ℚ
  pivot : Option ℚ
  current_price : Option ℚ
  current_volume : Option ℚ

/-- `TechnicalIndicators.get_latest_values` over
`calculate_all_indicators`. -/
def get_latest_values (df : List Candle) : Snapshot :=
  let closeS := df.map Candle.close
  { sma_20 := latestValue (calculate_sma closeS 20),
    sma_50 := latestValue (calculate_sma closeS 50),
    ema_12 := latestValue (calculate_ema closeS 12),
    ema_26 := latestValue (calculate_ema closeS 26),
    rsi := latestValue (calculate_rsi closeS 14),
    macd := latestValue (calculate_macd closeS).1,
    macd_signal := latestValue (calculate_macd closeS).2.1,
    macd_histogram := latestValue (calculate_macd closeS).2.2,
    bb_middle := latestValue (calculate_sma closeS 20),
    stoch_k := latestValue (calculate_stochastic df 14 3).1,
    stoch_d := latestValue (calculate_stochastic df 14 3).2,
    adx := latestValue (calculate_adx df 14),
    volume_sma := latestValue (calculate_volume_indicators df).1,
    volume_ratio := latestValue (calculate_volume_indicators df).2.1,
    obv := latestValue (calculate_volume_indicators df).2.2,
    support := supportOf df,
    resistance := resistanceOf df,
    pivot := pivotOf df,
    current_price := df.getLast?.map Candle.close,
    current_volume := df.getLast?.map Candle.volume }

/-! ### Series infrastructure lemmas -/

theorem length_rollingApply (n : ℕ) (f : List PF → PF) (xs : List PF) :
    (rollingApply n f xs).length = xs.length := by
  simp [rollingApply]

theorem length_diffSeries (xs : List PF) : (diffSeries xs).length = xs.length := by
  cases xs with
  | nil => rfl
  | cons x rest =>
    simp [diffSeries, List.length_zipWith]

theorem length_ewmGo (a : ℚ) (e : PF) (l : List PF) : (ewmGo a e l).length = l.length := by
  induction l generalizing e with
  | nil => rfl
  | cons x rest ih => simp [ewmGo, ih]

theorem length_ewmSeries (a : ℚ) (xs : List PF) : (ewmSeries a xs).length = xs.length := by
  cases xs with
  | nil => rfl
  | cons x rest => simp [ewmSeries, length_ewmGo]

theorem getElem?_rollingApply (n : ℕ) (f : List PF → PF) (xs : List PF) (i : ℕ)
    (h : i < xs.length) :
    (rollingApply n f xs)[i]? =
      some (if i + 1 < n then PF.nan else f ((xs.take (i + 1)).drop (i + 1 - n))) := by
  simp [rollingApply, List.getElem?_map, List.getElem?_range, h]

theorem getElem?_zipWithPF (f : PF → PF → PF) :
    ∀ (as bs : List PF) (i : ℕ) (a b : PF),
      as[i]? = some a → bs[i]? = some b →
      (List.zipWith f as bs)[i]? = some (f a b)
  | [], _, i, a, b => by simp
  | _ :: _, [], i, a, b => by simp
  | x :: xs, y :: ys, 0, a, b => by
    intro ha hb
    simp only [List.getElem?_cons_zero, Option.some.injEq] at ha hb
    simp [List.zipWith, ha, hb]
  | x :: xs, y :: ys, i + 1, a, b => by
    intro ha hb
    simp only [List.getElem?_cons_succ] at ha hb
    simpa using getElem?_zipWithPF f xs ys i a b ha hb

theorem getLastN {α : Type} (l : List α) (_hne : l ≠ []) :
    l.getLast? = l[l.length - 1]? := List.getLast?_eq_getElem? l

/-- The trailing window of the last rolling position is the trailing window
of the series. -/
theorem rolling_last_window (n : ℕ) (f : List PF → PF) (xs : List PF)
    (hn : 0 < n) (hlen : n ≤ xs.length) :
    (rollingApply n f xs).getLast? = some (f (xs.drop (xs.length - n))) := by
  have hlpos : 0 < xs.length := lt_of_lt_of_le hn hlen
  have hlen2 : (rollingApply n f xs).length = xs.length := length_rollingApply n f xs
  have hne : rollingApply n f xs ≠ [] := by
    intro h0
    rw [h0] at hlen2
    simp at hlen2
    omega
  rw [getLastN _ hne, hlen2,
    getElem?_rollingApply n f xs (xs.length - 1) (by omega)]
  have h1 : xs.length - 1 + 1 = xs.length := by omega
  rw [h1, if_neg (by omega), List.take_length]

/-! ### Lemmas on PF arithmetic over plain rationals -/

theorem PF.sub_num (a b : ℚ) : PF.sub (PF.num a) (PF.num b) = PF.num (a - b) := by
  simp [PF.sub, PF.add, PF.neg, sub_eq_add_neg]

theorem zipWith_sub_map_num :
    ∀ (l1 l2 : List ℚ),
      List.zipWith PF.sub (l1.map PF.num) (l2.map PF.num) =
        (List.zipWith (fun a b => a - b) l1 l2).map PF.num
  | [], _ => by simp
  | _ :: _, [] => by simp
  | a :: as, b :: bs => by
    simp only [List.map_cons, List.zipWith_cons_cons, PF.sub_num,
      zipWith_sub_map_num as bs]

theorem pfSum_map_num (l : List ℚ) : pfSum (l.map PF.num) = PF.num l.sum := by
  induction l with
  | nil => rfl
  | cons x rest ih =>
    show PF.add (PF.num x) (pfSum (rest.map PF.num)) = PF.num (x :: rest).sum
    rw [ih, List.sum_cons]
    rfl

theorem pfMean_map_num (l : List ℚ) (hne : l ≠ []) :
    pfMean (l.map PF.num) = PF.num (l.sum / (l.length : ℚ)) := by
  have hlen : ((l.map PF.num).length : ℚ) = (l.length : ℚ) := by simp
  have hq : ((l.length : ℚ)) ≠ 0 := by
    simp only [ne_eq, Nat.cast_eq_zero, List.length_eq_zero]
    exact hne
  unfold pfMean
  rw [pfSum_map_num, hlen]
  simp [PF.div, hq]

/-! ### RSI on a strictly increasing close series (claim C6) -/

theorem chain_deltas_pos :
    ∀ (qs : List ℚ), qs.Chain' (· < ·) →
      ∀ q ∈ List.zipWith (fun a b => a - b) qs.tail qs, 0 < q
  | [], _, q, hq => by simp at hq
  | [_], _, q, hq => by simp at hq
  | a :: b :: t, h, q, hq => by
    rw [List.tail_cons, List.zipWith_cons_cons] at hq
    rcases List.mem_cons.mp hq with h1 | h2
    · rw [h1]
      exact sub_pos.mpr (List.chain'_cons.mp h).1
    · exact chain_deltas_pos (b :: t) (List.chain'_cons.mp h).2 q h2

theorem gainF_nan : gainF PF.nan = PF.num 0 := rfl

theorem lossF_nan : lossF PF.nan = PF.num 0 := by
  simp [lossF, PF.ltb, PF.neg, neg_zero]

theorem gainF_pos (q : ℚ) (hq : 0 < q) : gainF (PF.num q) = PF.num q := by
  simp [gainF, PF.gtb, PF.ltb, hq]

theorem lossF_pos (q : ℚ) (hq : 0 < q) : lossF (PF.num q) = PF.num 0 := by
  simp [lossF, PF.ltb, PF.neg, not_lt.mpr (le_of_lt hq), neg_zero]

/-- **C6.** RSI(14) of a strictly increasing close series of at least 15
samples: the 14-sample rolling loss window is all zeros, the rolling gain is
positive, `rs = gain/0 = +∞` and `100 − 100/(1+∞)` evaluates to exactly 100
(overbought, not an error). -/
theorem rsi_strictly_increasing_is_100 (closeS : List ℚ)
    (h15 : 15 ≤ closeS.length) (hmono : closeS.Chain' (· < ·)) :
    (calculate_rsi closeS 14).getLast? = some (PF.num 100) := by
  obtain ⟨c0, ct, hc⟩ : ∃ c0 ct, closeS = c0 :: ct := by
    cases closeS with
    | nil => simp at h15
    | cons c0 ct => exact ⟨c0, ct, rfl⟩
  set n := closeS.length with hn
  have hnpos : 0 < n := by omega
  -- the rational successive differences, all positive
  set dq := List.zipWith (fun a b => a - b) closeS.tail closeS with hdq
  have hdq_pos : ∀ q ∈ dq, 0 < q := chain_deltas_pos closeS hmono
  have hdq_len : dq.length = n - 1 := by
    rw [hdq, hn, hc]
    simp [List.length_zipWith]
  -- the delta series is NaN followed by the positive rational deltas
  have hdelta : diffSeries (closeS.map PF.num) = PF.nan :: dq.map PF.num := by
    rw [hc]
    simp only [List.map_cons, diffSeries, List.tail_cons]
    rw [hdq, hc, List.tail_cons]
    rw [show (PF.num c0 :: List.map PF.num ct : List PF) = (c0 :: ct).map PF.num by simp]
    rw [zipWith_sub_map_num ct (c0 :: ct)]
  -- the gain and loss input series
  have hgain_list : (diffSeries (closeS.map PF.num)).map gainF =
      PF.num 0 :: (dq.map PF.num).map gainF := by
    rw [hdelta, List.map_cons, gainF_nan]
  have hloss_list : (diffSeries (closeS.map PF.num)).map lossF =
      PF.num 0 :: (dq.map PF.num).map lossF := by
    rw [hdelta, List.map_cons, lossF_nan]
  -- lengths
  have hglen : ((diffSeries (closeS.map PF.num)).map gainF).length = n := by
    simp [length_diffSeries]
  have hllen : ((diffSeries (closeS.map PF.num)).map lossF).length = n := by
    simp [length_diffSeries]
  -- the trailing 14-window of the gain series: positive rationals
  set w := dq.drop (n - 15) with hw
  have hw_len : w.length = 14 := by
    rw [hw, List.length_drop, hdq_len]
    omega
  have hw_pos : ∀ q ∈ w, 0 < q := fun q hq => hdq_pos q (List.drop_subset _ _ hq)
  have hw_ne : w ≠ [] := by
    intro h0
    rw [h0] at hw_len
    simp at hw_len
  have hgain_window : ((diffSeries (closeS.map PF.num)).map gainF).drop (n - 14) =
      w.map PF.num := by
    rw [hgain_list]
    rw [show n - 14 = (n - 15) + 1 by omega, List.drop_succ_cons]
    rw [← List.map_drop, ← List.map_drop, ← hw]
    rw [List.map_map]
    apply List.map_congr_left
    intro q hq
    exact (congrArg _ rfl).trans (gainF_pos q (hw_pos q hq))
  have hloss_window : ((diffSeries (closeS.map PF.num)).map lossF).drop (n - 14) =
      List.replicate 14 (PF.num 0) := by
    rw [hloss_list]
    rw [show n - 14 = (n - 15) + 1 by omega, List.drop_succ_cons]
    rw [← List.map_drop, ← List.map_drop, ← hw]
    rw [List.map_map]
    rw [show (14 : ℕ) = w.length from hw_len.symm]
    rw [List.eq_replicate_iff]
    refine ⟨by simp, ?_⟩
    intro x hx
    obtain ⟨q, hq, hxq⟩ := List.mem_map.mp hx
    rw [← hxq]
    exact (congrArg _ rfl).trans (lossF_pos q (hw_pos q hq))
  -- the last rolling means
  have hgain_last : (rollingApply 14 pfMean ((diffSeries (closeS.map PF.num)).map gainF)).getLast? =
      some (PF.num (w.sum / 14)) := by
    rw [rolling_last_window 14 pfMean _ (by omega) (by omega)]
    rw [hglen, hgain_window, pfMean_map_num w hw_ne, hw_len]
    norm_num
  have hloss_last : (rollingApply 14 pfMean ((diffSeries (closeS.map PF.num)).map lossF)).getLast? =
      some (PF.num 0) := by
    rw [rolling_last_window 14 pfMean _ (by omega) (by omega)]
    rw [hllen, hloss_window]
    rw [show List.replicate 14 (PF.num 0) = (List.replicate 14 (0:ℚ)).map PF.num by simp]
    rw [pfMean_map_num _ (by simp)]
    simp
  have hsum_pos : 0 < w.sum / 14 := by
    apply div_pos _ (by norm_num)
    exact List.sum_pos w hw_pos hw_ne
  -- assemble rs and rsi
  have hrs_div : PF.div (PF.num (w.sum / 14)) (PF.num 0) = PF.pinf := by
    simp [PF.div, ne_of_gt hsum_pos, hsum_pos]
  have hrsiF : rsiF PF.pinf = PF.num 100 := by
    simp [rsiF, PF.add, PF.div, PF.sub, PF.neg]
  -- lengths for index bookkeeping
  have hga : (rollingApply 14 pfMean ((diffSeries (closeS.map PF.num)).map gainF)).length = n := by
    rw [length_rollingApply, hglen]
  have hlo : (rollingApply 14 pfMean ((diffSeries (closeS.map PF.num)).map lossF)).length = n := by
    rw [length_rollingApply, hllen]
  have hgain_idx : (rollingApply 14 pfMean ((diffSeries (closeS.map PF.num)).map gainF))[n - 1]? =
      some (PF.num (w.sum / 14)) := by
    rw [← hgain_last, getLastN]
    · rw [hga]
    · intro h0
      rw [h0] at hga
      simp at hga
      omega
  have hloss_idx : (rollingApply 14 pfMean ((diffSeries (closeS.map PF.num)).map lossF))[n - 1]? =
      some (PF.num 0) := by
    rw [← hloss_last, getLastN]
    · rw [hlo]
    · intro h0
      rw [h0] at hlo
      simp at hlo
      omega
  have hrs_idx : (List.zipWith PF.div
      (rollingApply 14 pfMean ((diffSeries (closeS.map PF.num)).map gainF))
      (rollingApply 14 pfMean ((diffSeries (closeS.map PF.num)).map lossF)))[n - 1]? =
      some PF.pinf := by
    rw [getElem?_zipWithPF PF.div _ _ (n - 1) _ _ hgain_idx hloss_idx, hrs_div]
  have hfinal_len : ((List.zipWith PF.div
      (rollingApply 14 pfMean ((diffSeries (closeS.map PF.num)).map gainF))
      (rollingApply 14 pfMean ((diffSeries (closeS.map PF.num)).map lossF))).map rsiF).length = n := by
    simp [List.length_zipWith, hga, hlo]
  show ((List.zipWith PF.div
      (rollingApply 14 pfMean ((diffSeries (closeS.map PF.num)).map gainF))
      (rollingApply 14 pfMean ((diffSeries (closeS.map PF.num)).map lossF))).map rsiF).getLast? =
    some (PF.num 100)
  rw [getLastN _ (by
      intro h0
      rw [h0] at hfinal_len
      simp at hfinal_len
      omega), hfinal_len]
  rw [List.getElem?_map, hrs_idx]
  simp [hrsiF]

theorem rsi_strictly_increasing_is_100_witness :
    (calculate_rsi [1, 2, 3, 4, 5, 6, 7, 8, 9, 10, 11, 12, 13, 14, 15] 14).getLast? =
      some (PF.num 100) :=
  rsi_strictly_increasing_is_100 [1, 2, 3, 4, 5, 6, 7, 8, 9, 10, 11, 12, 13, 14, 15]
    (by decide) (by norm_num [List.chain'_cons])

/-! ### Finite (non-NaN, non-∞) series: machinery for claim C7 -/

/-- Every entry of the series is a plain rational. -/
def AllNum (l : List PF) : Prop := ∀ x ∈ l, ∃ q : ℚ, x = PF.num q

theorem allNum_map_num (l : List ℚ) : AllNum (l.map PF.num) := by
  intro x hx
  obtain ⟨q, _, hq⟩ := List.mem_map.mp hx
  exact ⟨q, hq.symm⟩

theorem ewmStep_num (a qe qx : ℚ) :
    ewmStep a (PF.num qe) (PF.num qx) = PF.num ((1 - a) * qe + a * qx) := rfl

theorem allNum_ewmGo (a : ℚ) :
    ∀ (l : List PF) (e : PF), (∃ q, e = PF.num q) → AllNum l → AllNum (ewmGo a e l)
  | [], _, _, _ => by intro x hx; simp [ewmGo] at hx
  | x :: rest, e, ⟨qe, he⟩, hl => by
    intro y hy
    obtain ⟨qx, hx⟩ := hl x (List.mem_cons_self x rest)
    rw [ewmGo] at hy
    rcases List.mem_cons.mp hy with h1 | h2
    · subst he hx
      exact ⟨(1 - a) * qe + a * qx, by rw [h1, ewmStep_num]⟩
    · have hstep : ∃ q, ewmStep a e x = PF.num q := by
        subst he hx
        exact ⟨(1 - a) * qe + a * qx, ewmStep_num a qe qx⟩
      exact allNum_ewmGo a rest (ewmStep a e x) hstep
        (fun z hz => hl z (List.mem_cons_of_mem x hz)) y h2

theorem allNum_ewmSeries (a : ℚ) (l : List PF) (h : AllNum l) :
    AllNum (ewmSeries a l) := by
  cases l with
  | nil => intro x hx; simp [ewmSeries] at hx
  | cons x rest =>
    intro y hy
    rw [ewmSeries] at hy
    rcases List.mem_cons.mp hy with h1 | h2
    · exact h y (h1 ▸ List.mem_cons_self x rest)
    · exact allNum_ewmGo _ rest x (h x (List.mem_cons_self x rest))
        (fun z hz => h z (List.mem_cons_of_mem x hz)) y h2

theorem allNum_zipWith (f : PF → PF → PF)
    (hf : ∀ a b : ℚ, ∃ c, f (PF.num a) (PF.num b) = PF.num c) :
    ∀ (l1 l2 : List PF), AllNum l1 → AllNum l2 → AllNum (List.zipWith f l1 l2)
  | [], _, _, _ => by intro x hx; simp at hx
  | _ :: _, [], _, _ => by intro x hx; simp at hx
  | x :: xs, y :: ys, h1, h2 => by
    intro z hz
    rw [List.zipWith_cons_cons] at hz
    rcases List.mem_cons.mp hz with hh | hh
    · obtain ⟨qx, hqx⟩ := h1 x (List.mem_cons_self x xs)
      obtain ⟨qy, hqy⟩ := h2 y (List.mem_cons_self y ys)
      obtain ⟨c, hc⟩ := hf qx qy
      exact ⟨c, by rw [hh, hqx, hqy, hc]⟩
    · exact allNum_zipWith f hf xs ys
        (fun u hu => h1 u (List.mem_cons_of_mem x hu))
        (fun u hu => h2 u (List.mem_cons_of_mem y hu)) z hh

/-- Every entry is NaN or a plain rational (no infinities). -/
def NumOrNan (l : List PF) : Prop := ∀ x ∈ l, x = PF.nan ∨ ∃ q : ℚ, x = PF.num q

theorem numOrNan_diff_map_num (l : List ℚ) : NumOrNan (diffSeries (l.map PF.num)) := by
  cases l with
  | nil => intro x hx; simp [diffSeries] at hx
  | cons c0 ct =>
    intro x hx
    simp only [List.map_cons, diffSeries, List.tail_cons] at hx
    rcases List.mem_cons.mp hx with h1 | h2
    · exact Or.inl h1
    · right
      rw [show (PF.num c0 :: List.map PF.num ct : List PF) = (c0 :: ct).map PF.num by simp,
        zipWith_sub_map_num ct (c0 :: ct)] at h2
      obtain ⟨q, _, hq⟩ := List.mem_map.mp h2
      exact ⟨q, hq.symm⟩

theorem numOrNan_map_sign (l : List PF) (h : NumOrNan l) : NumOrNan (l.map PF.signPF) := by
  intro x hx
  obtain ⟨y, hy, hxy⟩ := List.mem_map.mp hx
  rcases h y hy with h1 | ⟨q, h2⟩
  · left; rw [← hxy, h1]; rfl
  · right
    refine ⟨if 0 < q then 1 else if q < 0 then -1 else 0, ?_⟩
    rw [← hxy, h2]
    rfl

theorem numOrNan_zipWith_mul :
    ∀ (l1 l2 : List PF), NumOrNan l1 → AllNum l2 →
      NumOrNan (List.zipWith PF.mul l1 l2)
  | [], _, _, _ => by intro x hx; simp at hx
  | _ :: _, [], _, _ => by intro x hx; simp at hx
  | x :: xs, y :: ys, h1, h2 => by
    intro z hz
    rw [List.zipWith_cons_cons] at hz
    obtain ⟨qy, hqy⟩ := h2 y (List.mem_cons_self y ys)
    rcases List.mem_cons.mp hz with hh | hh
    · rcases h1 x (List.mem_cons_self x xs) with hx1 | ⟨qx, hx2⟩
      · left; rw [hh, hx1, hqy]; rfl
      · right; exact ⟨qx * qy, by rw [hh, hx2, hqy]; rfl⟩
    · exact numOrNan_zipWith_mul xs ys
        (fun u hu => h1 u (List.mem_cons_of_mem x hu))
        (fun u hu => h2 u (List.mem_cons_of_mem y hu)) z hh

theorem allNum_map_fillZero (l : List PF) (h : NumOrNan l) : AllNum (l.map PF.fillZero) := by
  intro x hx
  obtain ⟨y, hy, hxy⟩ := List.mem_map.mp hx
  rcases h y hy with h1 | ⟨q, h2⟩
  · exact ⟨0, by rw [← hxy, h1]; rfl⟩
  · exact ⟨q, by rw [← hxy, h2]; rfl⟩

theorem allNum_cumsumGo :
    ∀ (l : List PF) (acc : PF), (∃ q, acc = PF.num q) → AllNum l →
      AllNum (calculate_volume_indicators.cumsumGo acc l)
  | [], _, _, _ => by intro x hx; simp [calculate_volume_indicators.cumsumGo] at hx
  | x :: rest, acc, ⟨qa, ha⟩, hl => by
    intro y hy
    obtain ⟨qx, hx⟩ := hl x (List.mem_cons_self x rest)
    rw [calculate_volume_indicators.cumsumGo] at hy
    have hsum : PF.add acc x = PF.num (qa + qx) := by rw [ha, hx]; rfl
    rcases List.mem_cons.mp hy with h1 | h2
    · exact ⟨qa + qx, by rw [h1, hsum]⟩
    · exact allNum_cumsumGo rest (PF.add acc x) ⟨qa + qx, hsum⟩
        (fun z hz => hl z (List.mem_cons_of_mem x hz)) y h2

theorem length_cumsumGo :
    ∀ (l : List PF) (acc : PF),
      (calculate_volume_indicators.cumsumGo acc l).length = l.length
  | [], _ => rfl
  | _ :: rest, acc => by
    simp [calculate_volume_indicators.cumsumGo, length_cumsumGo rest]

/-- `latestValue` of a non-empty all-rational series is present. -/
theorem latestValue_isSome_of_allNum (l : List PF) (hne : l ≠ []) (h : AllNum l) :
    (latestValue l).isSome = true := by
  obtain ⟨v, hv⟩ := Option.isSome_iff_exists.mp (List.getLast?_isSome.mpr hne)
  obtain ⟨q, hq⟩ := h v (List.mem_of_mem_getLast? hv)
  unfold latestValue
  rw [hv, hq]
  rfl

theorem sma_last_nan (closeS : List ℚ) (n : ℕ) (hne : closeS ≠ [])
    (hlen : closeS.length < n) : latestValue (calculate_sma closeS n) = none := by
  have hpos : 0 < closeS.length := List.length_pos.mpr hne
  have hlen2 : (calculate_sma closeS n).length = closeS.length := by
    simp [calculate_sma, length_rollingApply]
  have hne2 : calculate_sma closeS n ≠ [] := by
    intro h0
    rw [h0] at hlen2
    simp at hlen2
    omega
  have hlast : (calculate_sma closeS n).getLast? = some PF.nan := by
    rw [getLastN _ hne2, hlen2]
    unfold calculate_sma
    rw [getElem?_rollingApply _ _ _ _ (by simp; omega), if_pos (by omega)]
  unfold latestValue
  rw [hlast]

/-- **C7.** For a series with fewer samples than the SMA window, the latest
SMA value in the snapshot is the absent marker (`none`), not zero and not an
error; and the other indicators are still computed (EMA, MACD, OBV, pivot and
the current price are all present for any non-empty frame). -/
theorem sma_insufficient_history (df : List Candle) (n : ℕ) (hne : df ≠ [])
    (hn : df.length < n) :
    latestValue (calculate_sma (df.map Candle.close) n) = none ∧
    (df.length < 20 → (get_latest_values df).sma_20 = none) ∧
    (df.length < 50 → (get_latest_values df).sma_50 = none) ∧
    (get_latest_values df).ema_12.isSome = true ∧
    (get_latest_values df).macd.isSome = true ∧
    (get_latest_values df).obv.isSome = true ∧
    (get_latest_values df).pivot.isSome = true ∧
    (get_latest_values df).current_price.isSome = true := by
  have hdfpos : 0 < df.length := List.length_pos.mpr hne
  have hcl_ne : df.map Candle.close ≠ [] := by
    simp only [ne_eq, List.map_eq_nil_iff]
    exact hne
  have hcl_len : (df.map Candle.close).length = df.length := List.length_map _ _
  refine ⟨sma_last_nan _ n hcl_ne (by rw [hcl_len]; exact hn), ?_, ?_, ?_, ?_, ?_, ?_, ?_⟩
  · intro h20
    show latestValue (calculate_sma (df.map Candle.close) 20) = none
    exact sma_last_nan _ 20 hcl_ne (by rw [hcl_len]; exact h20)
  · intro h50
    show latestValue (calculate_sma (df.map Candle.close) 50) = none
    exact sma_last_nan _ 50 hcl_ne (by rw [hcl_len]; exact h50)
  · show (latestValue (calculate_ema (df.map Candle.close) 12)).isSome = true
    apply latestValue_isSome_of_allNum
    · refine List.length_pos.mp ?_
      rw [calculate_ema, length_ewmSeries]
      simpa using hdfpos
    · exact allNum_ewmSeries _ _ (allNum_map_num _)
  · show (latestValue (List.zipWith PF.sub
      (ewmSeries 12 ((df.map Candle.close).map PF.num))
      (ewmSeries 26 ((df.map Candle.close).map PF.num)))).isSome = true
    apply latestValue_isSome_of_allNum
    · refine List.length_pos.mp ?_
      rw [List.length_zipWith, length_ewmSeries, length_ewmSeries]
      simpa using hdfpos
    · exact allNum_zipWith PF.sub (fun a b => ⟨a - b, PF.sub_num a b⟩) _ _
        (allNum_ewmSeries _ _ (allNum_map_num _))
        (allNum_ewmSeries _ _ (allNum_map_num _))
  · show (latestValue (calculate_volume_indicators.cumsumGo (PF.num 0)
      (((List.zipWith PF.mul ((diffSeries (closesOf df)).map PF.signPF)
        (volumesOf df))).map PF.fillZero))).isSome = true
    have hvol : AllNum (volumesOf df) := by
      intro x hx
      obtain ⟨cd, _, hcd⟩ := List.mem_map.mp hx
      exact ⟨cd.volume, hcd.symm⟩
    have hcloseseq : closesOf df = (df.map Candle.close).map PF.num := by
      simp [closesOf, List.map_map]
    apply latestValue_isSome_of_allNum
    · refine List.length_pos.mp ?_
      rw [length_cumsumGo]
      simp only [List.length_map, List.length_zipWith]
      rw [length_diffSeries]
      simp only [closesOf, volumesOf, List.length_map, min_self]
      exact hdfpos
    · apply allNum_cumsumGo _ _ ⟨0, rfl⟩
      apply allNum_map_fillZero
      apply numOrNan_zipWith_mul
      · apply numOrNan_map_sign
        rw [hcloseseq]
        exact numOrNan_diff_map_num _
      · exact hvol
  · show (pivotOf df).isSome = true
    unfold pivotOf
    obtain ⟨v, hv⟩ := Option.isSome_iff_exists.mp (List.getLast?_isSome.mpr hne)
    rw [hv]
    rfl
  · show (df.getLast?.map Candle.close).isSome = true
    obtain ⟨v, hv⟩ := Option.isSome_iff_exists.mp (List.getLast?_isSome.mpr hne)
    rw [hv]
    rfl

theorem sma_insufficient_history_witness :
    (get_latest_values [(⟨1, 1, 1, 1, 1⟩ : Candle), ⟨2, 2, 2, 2, 2⟩, ⟨3, 3, 3, 3, 3⟩]).sma_20
      = none ∧
    ((get_latest_values [(⟨1, 1, 1, 1, 1⟩ : Candle), ⟨2, 2, 2, 2, 2⟩,
      ⟨3, 3, 3, 3, 3⟩]).ema_12).isSome = true :=
  ⟨(sma_insufficient_history [⟨1, 1, 1, 1, 1⟩, ⟨2, 2, 2, 2, 2⟩, ⟨3, 3, 3, 3, 3⟩] 20
      (by simp) (by decide)).2.1 (by decide),
   (sma_insufficient_history [⟨1, 1, 1, 1, 1⟩, ⟨2, 2, 2, 2, 2⟩, ⟨3, 3, 3, 3, 3⟩] 20
      (by simp) (by decide)).2.2.2.1⟩

/-! ### Rolling extrema over rationals: machinery for claim C8 -/

theorem pfMaxL_map_num :
    ∀ (l : List ℚ), l ≠ [] →
      ∃ m, pfMaxL (l.map PF.num) = PF.num m ∧ m ∈ l ∧ ∀ x ∈ l, x ≤ m
  | [], h => absurd rfl h
  | [x], _ =>
    ⟨x, rfl, List.mem_cons_self x [], fun y hy => by
      rw [List.mem_singleton.mp hy]⟩
  | x :: y :: t, _ => by
    obtain ⟨m, hm, hmem, hbound⟩ := pfMaxL_map_num (y :: t) (by simp)
    refine ⟨max x m, ?_, ?_, ?_⟩
    · show PF.max2 (PF.num x) (pfMaxL (PF.num y :: t.map PF.num)) = PF.num (max x m)
      rw [show (PF.num y :: t.map PF.num : List PF) = (y :: t).map PF.num by simp, hm]
      rfl
    · rcases max_choice x m with h | h
      · rw [h]; exact List.mem_cons_self x (y :: t)
      · rw [h]; exact List.mem_cons_of_mem x hmem
    · intro z hz
      rcases List.mem_cons.mp hz with h | h
      · rw [h]; exact le_max_left x m
      · exact le_trans (hbound z h) (le_max_right x m)

theorem pfMinL_map_num :
    ∀ (l : List ℚ), l ≠ [] →
      ∃ m, pfMinL (l.map PF.num) = PF.num m ∧ m ∈ l ∧ ∀ x ∈ l, m ≤ x
  | [], h => absurd rfl h
  | [x], _ =>
    ⟨x, rfl, List.mem_cons_self x [], fun y hy => by
      rw [List.mem_singleton.mp hy]⟩
  | x :: y :: t, _ => by
    obtain ⟨m, hm, hmem, hbound⟩ := pfMinL_map_num (y :: t) (by simp)
    refine ⟨min x m, ?_, ?_, ?_⟩
    · show PF.min2 (PF.num x) (pfMinL (PF.num y :: t.map PF.num)) = PF.num (min x m)
      rw [show (PF.num y :: t.map PF.num : List PF) = (y :: t).map PF.num by simp, hm]
      rfl
    · rcases min_choice x m with h | h
      · rw [h]; exact List.mem_cons_self x (y :: t)
      · rw [h]; exact List.mem_cons_of_mem x hmem
    · intro z hz
      rcases List.mem_cons.mp hz with h | h
      · rw [h]; exact min_le_left x m
      · exact le_trans (min_le_right x m) (hbound z h)

theorem getLast?_drop_of_lt {α : Type} (l : List α) (k : ℕ) (h : k < l.length) :
    (l.drop k).getLast? = l.getLast? := by
  rw [List.getLast?_eq_getElem?, List.getLast?_eq_getElem?, List.length_drop,
    List.getElem?_drop]
  congr 1
  omega

/-- **C8.** When the trailing 14-sample range is flat (rolling 14-max of the
highs equals rolling 14-min of the lows at the last sample) on a valid OHLCV
frame (`low ≤ close ≤ high` per candle), the %K denominator and numerator are
both zero, `0/0` is NaN, and the snapshot reports the stochastic %K as the
absent marker — not zero. -/
theorem stoch_k_flat_none (df : List Candle) (h14 : 14 ≤ df.length)
    (hvalid : ∀ cd ∈ df, cd.low ≤ cd.close ∧ cd.close ≤ cd.high)
    (hflat : (rollingApply 14 pfMaxL (highsOf df)).getLast? =
             (rollingApply 14 pfMinL (lowsOf df)).getLast?) :
    (get_latest_values df).stoch_k = none := by
  have hdfpos : 0 < df.length := by omega
  have hdfne : df ≠ [] := List.length_pos.mp hdfpos
  set n := df.length with hn
  -- the trailing 14-candle window
  set W := df.drop (n - 14) with hW
  have hWlen : W.length = 14 := by
    rw [hW, List.length_drop]
    omega
  have hWne : W ≠ [] := by
    intro h0
    rw [h0] at hWlen
    simp at hWlen
  have hWhigh_ne : W.map Candle.high ≠ [] := by
    simp only [ne_eq, List.map_eq_nil_iff]
    exact hWne
  have hWlow_ne : W.map Candle.low ≠ [] := by
    simp only [ne_eq, List.map_eq_nil_iff]
    exact hWne
  -- the last rolling extrema are the window extrema
  have hhigh_last : (rollingApply 14 pfMaxL (highsOf df)).getLast? =
      some (pfMaxL ((W.map Candle.high).map PF.num)) := by
    rw [rolling_last_window 14 pfMaxL (highsOf df) (by norm_num)
      (by simp [highsOf]; omega)]
    congr 1
    rw [highsOf, List.length_map, ← List.map_drop, ← hn, ← hW, List.map_map]
    rfl
  have hlow_last : (rollingApply 14 pfMinL (lowsOf df)).getLast? =
      some (pfMinL ((W.map Candle.low).map PF.num)) := by
    rw [rolling_last_window 14 pfMinL (lowsOf df) (by norm_num)
      (by simp [lowsOf]; omega)]
    congr 1
    rw [lowsOf, List.length_map, ← List.map_drop, ← hn, ← hW, List.map_map]
    rfl
  obtain ⟨mhi, hmhi, _, hhi_bound⟩ := pfMaxL_map_num (W.map Candle.high) hWhigh_ne
  obtain ⟨mlo, hmlo, _, hlo_bound⟩ := pfMinL_map_num (W.map Candle.low) hWlow_ne
  have hmeq : mhi = mlo := by
    have h1 := hflat
    rw [hhigh_last, hlow_last, hmhi, hmlo] at h1
    injection h1 with h2
    injection h2
  -- the last candle lies in the window and pins close = mlo
  obtain ⟨cl, hcl⟩ := Option.isSome_iff_exists.mp (List.getLast?_isSome.mpr hdfne)
  have hclW : cl ∈ W := by
    apply List.mem_of_mem_getLast? (l := W)
    rw [hW, getLast?_drop_of_lt df (n - 14) (by omega)]
    exact hcl
  have hcldf : cl ∈ df := List.mem_of_mem_getLast? hcl
  obtain ⟨hlc, hch⟩ := hvalid cl hcldf
  have hhi_le : cl.high ≤ mhi := hhi_bound cl.high (List.mem_map_of_mem Candle.high hclW)
  have hlo_le : mlo ≤ cl.low := hlo_bound cl.low (List.mem_map_of_mem Candle.low hclW)
  have hclose_eq : cl.close = mlo := by
    have h1 : cl.close ≤ mlo := by
      calc cl.close ≤ cl.high := hch
        _ ≤ mhi := hhi_le
        _ = mlo := hmeq
    exact le_antisymm h1 (le_trans hlo_le hlc)
  -- indices for the last element of the %K series
  have hclose_len : (closesOf df).length = n := by simp [closesOf, hn]
  have hlowmin_len : (rollingApply 14 pfMinL (lowsOf df)).length = n := by
    simp [length_rollingApply, lowsOf, hn]
  have hhighmax_len : (rollingApply 14 pfMaxL (highsOf df)).length = n := by
    simp [length_rollingApply, highsOf, hn]
  have hclose_ne : closesOf df ≠ [] := by
    simp only [ne_eq, closesOf, List.map_eq_nil_iff]
    exact hdfne
  have hlowmin_ne : rollingApply 14 pfMinL (lowsOf df) ≠ [] := by
    refine List.length_pos.mp ?_
    rw [hlowmin_len]
    omega
  have hhighmax_ne : rollingApply 14 pfMaxL (highsOf df) ≠ [] := by
    refine List.length_pos.mp ?_
    rw [hhighmax_len]
    omega
  have hclose_idx : (closesOf df)[n - 1]? = some (PF.num cl.close) := by
    rw [show n - 1 = (closesOf df).length - 1 by rw [hclose_len], ← getLastN _ hclose_ne,
      closesOf, List.getLast?_map, hcl]
    rfl
  have hlowmin_idx : (rollingApply 14 pfMinL (lowsOf df))[n - 1]? = some (PF.num mlo) := by
    rw [show n - 1 = (rollingApply 14 pfMinL (lowsOf df)).length - 1 by rw [hlowmin_len],
      ← getLastN _ hlowmin_ne, hlow_last, hmlo]
  have hhighmax_idx : (rollingApply 14 pfMaxL (highsOf df))[n - 1]? =
      some (PF.num mhi) := by
    rw [show n - 1 = (rollingApply 14 pfMaxL (highsOf df)).length - 1 by rw [hhighmax_len],
      ← getLastN _ hhighmax_ne, hhigh_last, hmhi]
  -- numerator and denominator at the last sample are both zero
  have hsub1 : (List.zipWith PF.sub (closesOf df)
      (rollingApply 14 pfMinL (lowsOf df)))[n - 1]? = some (PF.num 0) := by
    rw [getElem?_zipWithPF PF.sub _ _ _ _ _ hclose_idx hlowmin_idx, PF.sub_num,
      hclose_eq, sub_self]
  have hsub2 : (List.zipWith PF.sub (rollingApply 14 pfMaxL (highsOf df))
      (rollingApply 14 pfMinL (lowsOf df)))[n - 1]? = some (PF.num 0) := by
    rw [getElem?_zipWithPF PF.sub _ _ _ _ _ hhighmax_idx hlowmin_idx, PF.sub_num,
      hmeq, sub_self]
  have hdiv : (List.zipWith PF.div
      (List.zipWith PF.sub (closesOf df) (rollingApply 14 pfMinL (lowsOf df)))
      (List.zipWith PF.sub (rollingApply 14 pfMaxL (highsOf df))
        (rollingApply 14 pfMinL (lowsOf df))))[n - 1]? = some PF.nan := by
    rw [getElem?_zipWithPF PF.div _ _ _ _ _ hsub1 hsub2]
    simp [PF.div]
  have hk_idx : ((List.zipWith PF.div
      (List.zipWith PF.sub (closesOf df) (rollingApply 14 pfMinL (lowsOf df)))
      (List.zipWith PF.sub (rollingApply 14 pfMaxL (highsOf df))
        (rollingApply 14 pfMinL (lowsOf df)))).map (PF.mul (PF.num 100)))[n - 1]? =
      some PF.nan := by
    rw [List.getElem?_map, hdiv]
    rfl
  have hk_len : ((List.zipWith PF.div
      (List.zipWith PF.sub (closesOf df) (rollingApply 14 pfMinL (lowsOf df)))
      (List.zipWith PF.sub (rollingApply 14 pfMaxL (highsOf df))
        (rollingApply 14 pfMinL (lowsOf df)))).map (PF.mul (PF.num 100))).length = n := by
    simp only [List.length_map, List.length_zipWith, hclose_len, hlowmin_len,
      hhighmax_len, min_self]
  show latestValue ((List.zipWith PF.div
      (List.zipWith PF.sub (closesOf df) (rollingApply 14 pfMinL (lowsOf df)))
      (List.zipWith PF.sub (rollingApply 14 pfMaxL (highsOf df))
        (rollingApply 14 pfMinL (lowsOf df)))).map (PF.mul (PF.num 100))) = none
  have hk_ne : (List.zipWith PF.div
      (List.zipWith PF.sub (closesOf df) (rollingApply 14 pfMinL (lowsOf df)))
      (List.zipWith PF.sub (rollingApply 14 pfMaxL (highsOf df))
        (rollingApply 14 pfMinL (lowsOf df)))).map (PF.mul (PF.num 100)) ≠ [] := by
    refine List.length_pos.mp ?_
    rw [hk_len]
    omega
  have hk_last : ((List.zipWith PF.div
      (List.zipWith PF.sub (closesOf df) (rollingApply 14 pfMinL (lowsOf df)))
      (List.zipWith PF.sub (rollingApply 14 pfMaxL (highsOf df))
        (rollingApply 14 pfMinL (lowsOf df)))).map (PF.mul (PF.num 100))).getLast? =
      some PF.nan := by
    rw [getLastN _ hk_ne, hk_len]
    exact hk_idx
  unfold latestValue
  rw [hk_last]

theorem stoch_k_flat_none_witness :
    (get_latest_values (List.replicate 14 (⟨5, 5, 5, 5, 2⟩ : Candle))).stoch_k = none :=
  stoch_k_flat_none (List.replicate 14 ⟨5, 5, 5, 5, 2⟩) (by decide)
    (fun cd hcd => by
      rw [List.eq_of_mem_replicate hcd]
      exact ⟨le_refl _, le_refl _⟩)
    (by decide)

/-! ## On-demand analysis staleness check (`cryptos/views.py`, `crypto_analysis`)

The stored `TechnicalAnalysis` record and the decision whether to rerun the
Ollama analysis. Time is modelled in whole seconds (`timedelta(hours=1)` =
3600 s); the stored indicator snapshot is the JSON dict (an empty dict is
falsy for `if latest_analysis.indicators:`). -/

/-- The fields of a `TechnicalAnalysis` record the view reads and writes. -/
structure TARecord where
  indicators : List (String × ℚ)
  recommendation : String
  confidence_score : ℚ
  ollama_reasoning : String
  analysis_date : ℕ
deriving DecidableEq

/-- Lookup in the stored indicators dict (`indicators.get('current_price', 0)`). -/
def indLookup : List (String × ℚ) → String → Option ℚ
  | [], _ => none
  | (k2, v) :: rest, k => if k2 = k then some v else indLookup rest k

/-- The `should_update` decision of `crypto_analysis`: no record, or the
manual-refresh flag, or the record older than 1 hour, or — when the stored
snapshot has a positive `current_price` — a live price differing from it by
more than 2%. -/
def shouldUpdate (rec : Option TARecord) (force : Bool) (now : ℕ)
    (current_price : ℚ) : Bool :=
  match rec with
  | none => true
  | some r =>
    if force then true
    else if now - r.analysis_date > 3600 then true
    else if !r.indicators.isEmpty then
      let old_price := (indLookup r.indicators "current_price").getD 0
      if old_price > 0 then
        if |(current_price - old_price) / old_price| * 100 > 2 then true else false
      else false
    else false

/-- The recommendation-engine output applied on recompute. -/
structure NewAnalysis where
  recommendation : String
  confidence_score : ℚ
  reasoning : String

/-- How `crypto_analysis` updates an existing record once indicators are
available: on `should_update` every field is replaced and the analysis date
set to now; otherwise only the embedded indicator snapshot is refreshed
(`save(update_fields=['indicators'])`). -/
def applyVisit (r : TARecord) (force : Bool) (now : ℕ) (current_price : ℚ)
    (newInd : List (String × ℚ)) (a : NewAnalysis) : TARecord :=
  if shouldUpdate (some r) force now current_price then
    { indicators := newInd, recommendation := a.recommendation,
      confidence_score := a.confidence_score, ollama_reasoning := a.reasoning,
      analysis_date := now }
  else
    { r with indicators := newInd }

/-- **C9.** With an existing record and no manual-refresh flag: the analysis
is recomputed when the record is older than 1 hour, and also when the stored
snapshot's positive `current_price` differs from the live price by more than
2 % of the stored price; when neither holds, the cached record is served with
only its indicator snapshot replaced — recommendation, confidence and
reasoning unchanged. -/
theorem staleness_policy (r : TARecord) (now : ℕ) (price : ℚ)
    (newInd : List (String × ℚ)) (a : NewAnalysis) (old_price : ℚ)
    (hold : indLookup r.indicators "current_price" = some old_price)
    (hpos : 0 < old_price) :
    (now - r.analysis_date > 3600 → shouldUpdate (some r) false now price = true) ∧
    (|(price - old_price) / old_price| * 100 > 2 →
      shouldUpdate (some r) false now price = true) ∧
    (now - r.analysis_date ≤ 3600 → |(price - old_price) / old_price| * 100 ≤ 2 →
      shouldUpdate (some r) false now price = false ∧
      applyVisit r false now price newInd a = { r with indicators := newInd }) := by
  have hne : r.indicators.isEmpty = false := by
    cases hri : r.indicators with
    | nil => rw [hri] at hold; exact Option.noConfusion hold
    | cons x rest => rfl
  have hgetD : (indLookup r.indicators "current_price").getD 0 = old_price := by
    rw [hold]
    rfl
  refine ⟨?_, ?_, ?_⟩
  · intro hage
    simp only [shouldUpdate]
    rw [if_neg (by simp), if_pos hage]
  · intro hpct
    simp only [shouldUpdate]
    rw [if_neg (by simp)]
    by_cases hage : now - r.analysis_date > 3600
    · rw [if_pos hage]
    · rw [if_neg hage, if_pos (by rw [hne]; rfl), hgetD, if_pos hpos, if_pos hpct]
  · intro hage hpct
    have hsu : shouldUpdate (some r) false now price = false := by
      simp only [shouldUpdate]
      rw [if_neg (by simp), if_neg (not_lt.mpr hage), if_pos (by rw [hne]; rfl),
        hgetD, if_pos hpos, if_neg (not_lt.mpr hpct)]
    refine ⟨hsu, ?_⟩
    unfold applyVisit
    rw [hsu]
    simp

/-- A concrete stored record exercising the staleness policy. -/
def sampleRecord : TARecord :=
  { indicators := [("current_price", 100)], recommendation := "buy",
    confidence_score := 70, ollama_reasoning := "r", analysis_date := 0 }

/-- A concrete recommendation-engine output. -/
def sampleAnalysis : NewAnalysis :=
  { recommendation := "sell", confidence_score := 10, reasoning := "x" }

theorem staleness_policy_witness :
    shouldUpdate (some sampleRecord) false 4000 100 = true ∧
    shouldUpdate (some sampleRecord) false 1000 103 = true ∧
    applyVisit sampleRecord false 1000 101 [("current_price", 101)] sampleAnalysis =
      { indicators := [("current_price", 101)], recommendation := "buy",
        confidence_score := 70, ollama_reasoning := "r", analysis_date := 0 } := by
  have h1 := staleness_policy sampleRecord 4000 100 [("current_price", 101)]
    sampleAnalysis 100 rfl (by norm_num)
  have h2 := staleness_policy sampleRecord 1000 103 [("current_price", 101)]
    sampleAnalysis 100 rfl (by norm_num)
  have h3 := staleness_policy sampleRecord 1000 101 [("current_price", 101)]
    sampleAnalysis 100 rfl (by norm_num)
  refine ⟨h1.1 (by decide), h2.2.1 (by norm_num [abs_of_nonneg]), ?_⟩
  rw [(h3.2.2 (by decide) (by norm_num [abs_of_nonneg])).2]
  rfl

end CryptoIQ
